import Mathlib

/-!
Shallow embedding of the call-routing core of the Call-Routing-Project Go
solution (`main.go`): the global `costs` map (`map[string]string`), the
insertion-with-merge performed by `loadRouteCosts`/`loadFile`, the
longest-prefix lookup `getCost`, and the batch resolver
`getAllCosts`/`getCosts`.

Go strings are byte strings; all phone-number data here is ASCII, so a Lean
`List Char` models a Go string faithfully and Go's byte-wise lexicographic
`<` on strings is `strLtb` below on the underlying character lists.
File reading, menu interaction and CSV mechanics are external; the CSV
reader's per-line outcome is modelled as `Option` (a parsed row, or `none`
for a non-EOF read error such as a wrong field count), matching the
`row, err := reader.Read()` loop head of both loops.
-/

/-- Comparison of two characters the way Go compares the bytes of an ASCII
string: by code point. -/
def charLtb (a b : Char) : Bool := a.toNat < b.toNat

/-- Byte-wise lexicographic order of Go strings, on character lists
(identical to Go's `<` on the ASCII data this program handles). -/
def strLtb : List Char → List Char → Bool
  | [], [] => false
  | [], _ :: _ => true
  | _ :: _, [] => false
  | a :: as, b :: bs =>
    if charLtb a b then true
    else if charLtb b a then false
    else strLtb as bs

/-- Go's `s1 < s2` on strings. -/
def goLt (a b : String) : Bool := strLtb a.data b.data

/-- The global `costs` variable, `map[string]string`, as a function from
keys to optionally-present values (`v, ok := costs[k]`). -/
def CostsMap : Type := String → Option String

/-- The map `make(map[string]string)` the process starts with. -/
def emptyCosts : CostsMap := fun _ => none

/-- The Go assignment `costs[p] = c`. -/
def updateCosts (m : CostsMap) (p c : String) : CostsMap :=
  fun k => if k = p then some c else m k

/-- The merge step performed per row by `loadRouteCosts`
(src/unnamed/part_000 lines 167-173):
`if v, ok := costs[row[0]]; (ok && v > row[1]) || !ok { costs[row[0]] = row[1] }`.
Note the comparison `v > row[1]` is Go string comparison. -/
def insertRoute (m : CostsMap) (p c : String) : CostsMap :=
  match m p with
  | some v => if goLt c v then updateCosts m p c else m
  | none => updateCosts m p c

/-- Go's slice expression `s[:i]` (byte slicing; char slicing on ASCII). -/
def strTake (s : String) (i : Nat) : String := String.mk (s.data.take i)

/-- Go's `len(s)` (byte length; char length on ASCII). -/
def strLen (s : String) : Nat := s.data.length

/-- The loop of `getCost` (src/unnamed/part_000 lines 187-192):
`for i := len(pfx); i >= 0; i-- { if v, ok := costs[pfx[:i]]; ok { result = v } }`.
The counter runs from `strLen pfx` down to `0` inclusive; the second
argument is the current value of `result`. -/
def getCostLoop (m : CostsMap) (pfx : String) : Nat → String → String
  | 0, result =>
    match m (strTake pfx 0) with
    | some v => v
    | none => result
  | i + 1, result =>
    getCostLoop m pfx i
      (match m (strTake pfx (i + 1)) with
       | some v => v
       | none => result)

/-- `getCost` (src/unnamed/part_000 lines 182-196): `result` starts out as
the sentinel `"0"`, the loop above runs, and `result` is returned. -/
def getCost (m : CostsMap) (pfx : String) : String :=
  getCostLoop m pfx (strLen pfx) "0"

/-- The same `getCost` loop with the global map threaded through
explicitly as state: each iteration only reads the map (`costs[pfx[:i]]`)
and passes it on unchanged, exactly as in the source, and the final state
is returned alongside `result`. -/
def getCostLoopS (pfx : String) : Nat → String → CostsMap → String × CostsMap
  | 0, result, m =>
    (match m (strTake pfx 0) with
     | some v => v
     | none => result, m)
  | i + 1, result, m =>
    getCostLoopS pfx i
      (match m (strTake pfx (i + 1)) with
       | some v => v
       | none => result) m

/-- State-threaded `getCost`: returns the looked-up cost together with the
map as it stands after the call. -/
def getCostS (m : CostsMap) (pfx : String) : String × CostsMap :=
  getCostLoopS pfx (strLen pfx) "0" m

/-- One outcome of `reader.Read()` on a route-costs file: a parsed row
`(row[0], row[1])`, or `none` for a non-EOF error (wrong field count,
stray quote, ...). EOF is the end of the list. -/
abbrev RouteRow := Option (String × String)

/-- The reading loop of `loadRouteCosts` (src/unnamed/part_000 lines
155-174): each parsed row is merged into the map; on a reader error the
function prints the error and returns, abandoning the remaining rows
(`go_solution/main.go` line 112 even calls `log.Fatalf` there). -/
def loadRouteCosts : CostsMap → List RouteRow → CostsMap
  | m, [] => m
  | m, some (p, c) :: rest => loadRouteCosts (insertRoute m p c) rest
  | m, none :: _ => m

/-- One outcome of `reader.Read()` on a phone-numbers file: a parsed
number `row[0]`, or `none` for a non-EOF reader error. -/
abbrev PhoneRow := Option String

/-- The loop of `getAllCosts` (src/unnamed/part_000 lines 240-267): each
parsed row produces the result `(row[0], getCost(row[0]))`, in input
order; a reader error prints the error and returns, producing no result
for that row or any later row. -/
def getAllCosts : CostsMap → List PhoneRow → List (String × String)
  | _, [] => []
  | m, some q :: rest => (q, getCost m q) :: getAllCosts m rest
  | _, none :: _ => []

/-- The lines `getAllCosts` appends to the result file when `persist` is
true: `fmt.Sprintf("%s,%s\n", row[0], cost)` per produced result. -/
def resultLines (m : CostsMap) (rows : List PhoneRow) : List String :=
  (getAllCosts m rows).map (fun r => r.1 ++ "," ++ r.2 ++ "\n")

/-- A normalized query per the project's documentation: a leading `+`
followed only by digits. Used to state which query strings are malformed. -/
def isNormalized (s : String) : Bool :=
  match s.data with
  | [] => false
  | c :: cs => c = '+' && cs.all (fun d => d.isDigit)

/-- Folding a list of already-parsed records into the map with the merge
step, record by record. -/
def insertAll (m : CostsMap) (l : List (String × String)) : CostsMap :=
  l.foldl (fun acc r => insertRoute acc r.1 r.2) m

/-- Go's `if v > c then c else v` merge value: the smaller of the two
strings under Go string comparison, the incumbent winning ties. -/
def goMin (v c : String) : String := if goLt c v then c else v

/-- Value stored for a key after merging cost `c` with the map's previous
binding for that key. -/
def goMinOpt : Option String → String → String
  | none, c => c
  | some v, c => goMin v c

/-- The index of the longest-prefix test in the spec:
`{+1: 0.05, +1415: 0.02, +1415234: 0.03}`. -/
def costsC1 : CostsMap :=
  updateCosts (updateCosts (updateCosts emptyCosts "+1" "0.05") "+1415" "0.02") "+1415234" "0.03"

/-- An index holding the single route `+1` at the literal cost `0`. -/
def costsZero : CostsMap := updateCosts emptyCosts "+1" "0"

/-- The numeric value of an all-digit cost literal (enough to compare the
decimal values of integer cost strings such as `"9"` and `"10"`). -/
def decValue (s : String) : Option Nat :=
  if s.data ≠ [] ∧ s.data.all (fun d => d.isDigit) then
    some (s.data.foldl (fun n d => 10 * n + (d.toNat - 48)) 0)
  else none

theorem charLtb_irrefl (a : Char) : charLtb a a = false := by
  simp [charLtb]

theorem charLtb_asymm {a b : Char} (h : charLtb a b = true) : charLtb b a = false := by
  simp [charLtb] at h ⊢
  omega

theorem charLtb_conn {a b : Char} (h1 : charLtb a b = false) (h2 : charLtb b a = false) :
    a = b := by
  simp [charLtb] at h1 h2
  have h3 : a.toNat = b.toNat := le_antisymm h2 h1
  have h4 : Char.ofNat a.toNat = Char.ofNat b.toNat := by rw [h3]
  rwa [Char.ofNat_toNat, Char.ofNat_toNat] at h4

theorem charLtb_trans {a b c : Char} (h1 : charLtb a b = true) (h2 : charLtb b c = true) :
    charLtb a c = true := by
  simp [charLtb] at h1 h2 ⊢
  omega

theorem strLtb_cons {a b : Char} {as bs : List Char} :
    strLtb (a :: as) (b :: bs) = true ↔
      charLtb a b = true ∨ (a = b ∧ strLtb as bs = true) := by
  by_cases h1 : charLtb a b = true
  · simp [strLtb, h1]
  · have h1' : charLtb a b = false := by simpa using h1
    by_cases h2 : charLtb b a = true
    · have hne : ¬ a = b := by
        intro he
        rw [he, charLtb_irrefl] at h2
        exact Bool.false_ne_true h2
      simp [strLtb, h1', h2, hne]
    · have h2' : charLtb b a = false := by simpa using h2
      have hab : a = b := charLtb_conn h1' h2'
      simp [strLtb, h1', h2', hab, charLtb_irrefl]

theorem strLtb_asymm : ∀ {as bs : List Char}, strLtb as bs = true → strLtb bs as = false
  | [], [], h => by simp [strLtb] at h
  | [], _ :: _, _ => rfl
  | _ :: _, [], h => by simp [strLtb] at h
  | a :: as, b :: bs, h => by
    rcases strLtb_cons.mp h with hc | ⟨hab, ht⟩
    · have hc2 := charLtb_asymm hc
      simp [strLtb, hc2, hc]
    · subst hab
      have ht2 := strLtb_asymm ht
      simp [strLtb, charLtb_irrefl, ht2]

theorem strLtb_conn : ∀ {as bs : List Char},
    strLtb as bs = false → strLtb bs as = false → as = bs
  | [], [], _, _ => rfl
  | [], _ :: _, h1, _ => by simp [strLtb] at h1
  | _ :: _, [], _, h2 => by simp [strLtb] at h2
  | a :: as, b :: bs, h1, h2 => by
    have hab : charLtb a b = false := by
      by_cases hc : charLtb a b = true
      · rw [strLtb, hc] at h1; simp at h1
      · simpa using hc
    have hba : charLtb b a = false := by
      by_cases hc : charLtb b a = true
      · rw [strLtb, hc] at h2; simp at h2
      · simpa using hc
    have he : a = b := charLtb_conn hab hba
    subst he
    rw [strLtb, charLtb_irrefl] at h1 h2
    simp at h1 h2
    rw [strLtb_conn h1 h2]

theorem strLtb_trans : ∀ {as bs cs : List Char},
    strLtb as bs = true → strLtb bs cs = true → strLtb as cs = true
  | [], _ :: _, [], _, h2 => by simp [strLtb] at h2
  | [], _ :: _, _ :: _, _, _ => rfl
  | [], [], _, h1, _ => by simp [strLtb] at h1
  | _ :: _, [], _, h1, _ => by simp [strLtb] at h1
  | _ :: _, _ :: _, [], _, h2 => by simp [strLtb] at h2
  | a :: as, b :: bs, c :: cs, h1, h2 => by
    rcases strLtb_cons.mp h1 with hc1 | ⟨he1, ht1⟩
    · rcases strLtb_cons.mp h2 with hc2 | ⟨he2, ht2⟩
      · exact strLtb_cons.mpr (Or.inl (charLtb_trans hc1 hc2))
      · subst he2
        exact strLtb_cons.mpr (Or.inl hc1)
    · subst he1
      rcases strLtb_cons.mp h2 with hc2 | ⟨he2, ht2⟩
      · exact strLtb_cons.mpr (Or.inl hc2)
      · subst he2
        exact strLtb_cons.mpr (Or.inr ⟨rfl, strLtb_trans ht1 ht2⟩)

theorem goLt_asymm {a b : String} (h : goLt a b = true) : goLt b a = false :=
  strLtb_asymm h

theorem goLt_conn {a b : String} (h1 : goLt a b = false) (h2 : goLt b a = false) :
    a = b := by
  have hd : a.data = b.data := strLtb_conn h1 h2
  exact congrArg String.mk hd

theorem goLt_trans {a b c : String} (h1 : goLt a b = true) (h2 : goLt b c = true) :
    goLt a c = true :=
  strLtb_trans h1 h2

theorem goMin_idem (a : String) : goMin a a = a := by
  unfold goMin
  split <;> rfl

theorem goMin_comm (a b : String) : goMin a b = goMin b a := by
  unfold goMin
  by_cases h1 : goLt b a = true
  · have h2 := goLt_asymm h1
    simp [h1, h2]
  · by_cases h2 : goLt a b = true
    · simp [h1, h2]
    · have h1' : goLt b a = false := by simpa using h1
      have h2' : goLt a b = false := by simpa using h2
      rw [goLt_conn h2' h1']

theorem goMin_assoc (a b c : String) : goMin (goMin a b) c = goMin a (goMin b c) := by
  by_cases h1 : goLt b a = true
  · by_cases h2 : goLt c b = true
    · have h3 : goLt c a = true := goLt_trans h2 h1
      simp [goMin, h1, h2, h3]
    · simp [goMin, h1, h2]
  · by_cases h2 : goLt c b = true
    · simp [goMin, h1, h2]
    · have h3 : goLt c a = false := by
        by_cases h4 : goLt c a = true
        · by_cases h5 : goLt a b = true
          · have h6 : goLt c b = true := goLt_trans h4 h5
            exact absurd h6 h2
          · have h5' : goLt a b = false := by simpa using h5
            have h1' : goLt b a = false := by simpa using h1
            have hab : a = b := goLt_conn h5' h1'
            rw [hab] at h4
            exact absurd h4 h2
        · simpa using h4
      simp [goMin, h1, h2, h3]

theorem goMin_right_comm (a b c : String) :
    goMin (goMin a b) c = goMin (goMin a c) b := by
  rw [goMin_assoc, goMin_assoc, goMin_comm b c]

theorem goMinOpt_right_comm (o : Option String) (c d : String) :
    goMin (goMinOpt o c) d = goMin (goMinOpt o d) c := by
  cases o with
  | none => exact goMin_comm c d
  | some v => exact goMin_right_comm v c d

theorem goMinOpt_absorb (o : Option String) (c : String) :
    goMin (goMinOpt o c) c = goMinOpt o c := by
  cases o with
  | none => exact goMin_idem c
  | some v =>
    show goMin (goMin v c) c = goMin v c
    rw [goMin_assoc, goMin_idem]

theorem insertRoute_apply (m : CostsMap) (p c k : String) :
    insertRoute m p c k = if k = p then some (goMinOpt (m p) c) else m k := by
  unfold insertRoute
  cases h : m p with
  | none => simp [updateCosts, goMinOpt]
  | some v =>
    by_cases hlt : goLt c v = true
    · simp [hlt, updateCosts, goMinOpt, goMin]
    · have hlt' : goLt c v = false := by simpa using hlt
      simp [hlt', goMinOpt, goMin]
      split
      · next hk => rw [hk, h]
      · rfl

theorem insertRoute_comm (m : CostsMap) (p c q d : String) :
    insertRoute (insertRoute m p c) q d = insertRoute (insertRoute m q d) p c := by
  funext k
  simp only [insertRoute_apply]
  by_cases hqp : q = p
  · subst hqp
    by_cases hk : k = q
    · simp [hk]
      exact goMinOpt_right_comm (m q) c d
    · simp [hk]
  · have hpq : ¬ p = q := fun he => hqp he.symm
    by_cases hkq : k = q
    · by_cases hkp : k = p
      · exact absurd (hkq.symm.trans hkp) hqp
      · simp [hkq, hkp, hqp]
    · by_cases hkp : k = p
      · simp [hkq, hkp, hpq]
      · simp [hkq, hkp]

theorem insertAll_cons (m : CostsMap) (x : String × String) (l : List (String × String)) :
    insertAll m (x :: l) = insertAll (insertRoute m x.1 x.2) l := rfl

theorem insertAll_perm {l1 l2 : List (String × String)} (h : l1.Perm l2) :
    ∀ m, insertAll m l1 = insertAll m l2 := by
  induction h with
  | nil => intro m; rfl
  | cons x _ ih =>
    intro m
    rw [insertAll_cons, insertAll_cons]
    exact ih (insertRoute m x.1 x.2)
  | swap x y l =>
    intro m
    rw [insertAll_cons, insertAll_cons, insertAll_cons, insertAll_cons, insertRoute_comm]
  | trans _ _ ih1 ih2 =>
    intro m
    rw [ih1, ih2]

theorem loadRouteCosts_map_some (l : List (String × String)) :
    ∀ m, loadRouteCosts m (l.map some) = insertAll m l := by
  induction l with
  | nil => intro m; rfl
  | cons x t ih =>
    obtain ⟨p, c⟩ := x
    intro m
    exact ih (insertRoute m p c)

theorem getAllCosts_map_some (m : CostsMap) (l : List String) :
    getAllCosts m (l.map some) = l.map (fun n => (n, getCost m n)) := by
  induction l with
  | nil => rfl
  | cons x t ih => simp [getAllCosts, ih]

theorem getCostLoop_of_no_match (m : CostsMap) (pfx : String) :
    ∀ i r, (∀ j, j ≤ i → m (strTake pfx j) = none) → getCostLoop m pfx i r = r := by
  intro i
  induction i with
  | zero =>
    intro r h
    simp [getCostLoop, h 0 (le_refl 0)]
  | succ n ih =>
    intro r h
    simp only [getCostLoop, h (n + 1) (le_refl (n + 1))]
    exact ih r (fun j hj => h j (Nat.le_succ_of_le hj))

theorem getCost_of_no_match (m : CostsMap) (q : String)
    (h : ∀ i, i ≤ strLen q → m (strTake q i) = none) : getCost m q = "0" :=
  getCostLoop_of_no_match m q (strLen q) "0" h

theorem getCostLoop_empty_key (m : CostsMap) (pfx c : String)
    (h0 : m (strTake pfx 0) = some c) :
    ∀ i r, (∀ j, 0 < j → j ≤ i → m (strTake pfx j) = none) → getCostLoop m pfx i r = c := by
  intro i
  induction i with
  | zero =>
    intro r _
    simp [getCostLoop, h0]
  | succ n ih =>
    intro r h
    simp only [getCostLoop, h (n + 1) (Nat.succ_pos n) (le_refl (n + 1))]
    exact ih r (fun j hj hj2 => h j hj (Nat.le_succ_of_le hj2))

theorem getCostLoopS_eq (pfx : String) (m : CostsMap) :
    ∀ i r, getCostLoopS pfx i r m = (getCostLoop m pfx i r, m) := by
  intro i
  induction i with
  | zero => intro r; rfl
  | succ n ih =>
    intro r
    cases h : m (strTake pfx (n + 1)) with
    | none => simp [getCostLoopS, getCostLoop, h, ih]
    | some v => simp [getCostLoopS, getCostLoop, h, ih]

/-- Claim C1 (code bug): on the spec's own test index
`{+1: 0.05, +1415: 0.02, +1415234: 0.03}`, `getCost` does NOT return the
cost of the longest stored matching prefix. Its loop counts `i` down from
`len` to `0` and keeps overwriting `result` on every hit without breaking,
so the last hit — the SHORTEST matching prefix — wins: both
`"+14152345678"` (longest match `+1415234`, cost `0.03`) and
`"+14159990000"` (longest match `+1415`, cost `0.02`) come back with
`"0.05"`, the cost bound to the shortest match `+1`. Queries with a single
or no match behave as the claim expects. -/
theorem getCost_shortest_match_eval :
    getCost costsC1 "+14152345678" = "0.05" ∧
    getCost costsC1 "+14159990000" = "0.05" ∧
    getCost costsC1 "+19998887777" = "0.05" ∧
    getCost costsC1 "+447911123456" = "0" := by
  decide

/-- Claim C2 (code bug): the merge keeps the Go-string-comparison minimum
of the inserted cost strings, not the numeric minimum of their decimal
values. Inserting costs `"10"` and `"9"` for the same route (in either
order) leaves `"10"` stored, because `"10" < "9"` byte-wise, although the
decimal value of `"9"` (9) is below that of `"10"` (10). -/
theorem merge_string_compare_eval :
    loadRouteCosts emptyCosts [some ("+1", "10"), some ("+1", "9")] "+1" = some "10" ∧
    loadRouteCosts emptyCosts [some ("+1", "9"), some ("+1", "10")] "+1" = some "10" ∧
    decValue "10" = some 10 ∧ decValue "9" = some 9 ∧ 9 < 10 := by
  decide

/-- Claim C3 counterexample: loading `+1,0.05`, then a malformed row, then
the well-formed row `+2,0.07` leaves `+2` ABSENT from the index — the
well-formed record after the malformed one is not inserted, contradicting
the claim that loading continues with the remaining records. -/
theorem load_abandons_rest_cex :
    loadRouteCosts emptyCosts [some ("+1", "0.05"), none, some ("+2", "0.07")] "+1" = some "0.05" ∧
    loadRouteCosts emptyCosts [some ("+1", "0.05"), none, some ("+2", "0.07")] "+2" = none := by
  decide

/-- Claim C3 as amended: on the first malformed record (a CSV read error,
e.g. wrong field count) the loader returns, keeping every record read
before the error and abandoning the malformed record and everything after
it; the process itself is not terminated (in `src/unnamed/part_000`; the
`go_solution` variant even calls `log.Fatalf`). Records with a non-numeric
cost or a prefix missing the `+` marker are not rejected at all: they
parse as ordinary rows and are inserted verbatim. -/
theorem load_keeps_records_before_error :
    (∀ (m : CostsMap) (l1 : List (String × String)) (l2 : List RouteRow),
      loadRouteCosts m (l1.map some ++ none :: l2) = insertAll m l1) ∧
    loadRouteCosts emptyCosts [some ("1nomarker", "notanumber")] "1nomarker" = some "notanumber" := by
  constructor
  · intro m l1
    induction l1 generalizing m with
    | nil => intro l2; rfl
    | cons x t ih =>
      obtain ⟨p, c⟩ := x
      intro l2
      exact ih (insertRoute m p c) l2
  · decide

/-- Claim C4 counterexample: a line the CSV reader rejects aborts the
batch — with the spec's index loaded, the batch `[+19998887777, MALFORMED,
+15124156620]` produces a result only for the first line; the line after
the malformed one is never resolved, contradicting the claim. -/
theorem batch_abort_on_reader_error_cex :
    getAllCosts costsC1 [some "+19998887777", none, some "+15124156620"]
      = [("+19998887777", "0.05")] := by
  decide

/-- Claim C4 as amended: a malformed QUERY string (one that is not `+`
followed by digits) carried in a successfully parsed line is looked up
like any other line: it yields its own per-item result and every line
before and after it is still resolved, in order. (Only a line the CSV
reader itself fails on aborts the batch — see the counterexample.) -/
theorem batch_continues_past_malformed_query (m : CostsMap) (l1 l2 : List String)
    (q : String) (hq : isNormalized q = false) :
    getAllCosts m (l1.map some ++ some q :: l2.map some)
      = (l1 ++ q :: l2).map (fun n => (n, getCost m n)) := by
  induction l1 with
  | nil => simp [getAllCosts, getAllCosts_map_some]
  | cons x t ih => simp only [List.map_cons, List.cons_append, getAllCosts, List.append_eq, ih]

/-- Witness for the amended C4 theorem at a concrete batch: the malformed
query `"+1x"` sits between two well-formed numbers and the whole batch is
resolved in order. -/
theorem batch_continues_past_malformed_query_witness :
    getAllCosts costsC1 (List.map some ["+19998887777"] ++ some "+1x" :: List.map some ["+447911123456"])
      = (["+19998887777"] ++ "+1x" :: ["+447911123456"]).map (fun n => (n, getCost costsC1 n)) :=
  batch_continues_past_malformed_query costsC1 ["+19998887777"] ["+447911123456"] "+1x" (by decide)

/-- Claim C5: loading the same records in any two orders (permutations,
duplicates included) from any starting index produces indexes with the
same `getCost` answer for every query — the merge is a fold of a
commutative-associative-idempotent minimum, so the final map is
order-independent. -/
theorem load_order_independence (m : CostsMap) (l1 l2 : List (String × String))
    (h : l1.Perm l2) (q : String) :
    getCost (loadRouteCosts m (l1.map some)) q
      = getCost (loadRouteCosts m (l2.map some)) q := by
  rw [loadRouteCosts_map_some, loadRouteCosts_map_some, insertAll_perm h]

/-- Witness for C5 at a concrete pair of permuted record lists. -/
theorem load_order_independence_witness :
    getCost (loadRouteCosts emptyCosts ([("+1", "0.05"), ("+1415", "0.02")].map some)) "+14159"
      = getCost (loadRouteCosts emptyCosts ([("+1415", "0.02"), ("+1", "0.05")].map some)) "+14159" :=
  load_order_independence emptyCosts [("+1", "0.05"), ("+1415", "0.02")]
    [("+1415", "0.02"), ("+1", "0.05")] (by decide) "+14159"

/-- Claim C6 counterexample: a stored route whose literal cost is `"0"`
renders exactly like the no-route sentinel. With `+1` stored at cost `"0"`,
the batch output line for `"+12"` is `"+12,0"` although a stored prefix of
the query exists (`"+12"[:2] = "+1"` is a key) — so `"0"` in the output
does NOT occur exactly when no route is found. -/
theorem zero_cost_route_renders_as_sentinel_cex :
    resultLines costsZero [some "+12"] = ["+12,0" ++ "\n"] ∧
    costsZero (strTake "+12" 2) = some "0" := by
  decide

/-- Claim C6 as amended: for every index and every ordered sequence of
parsed input numbers, the exported output is exactly the lines
`<number>,<cost>` in input order with the cost given by `getCost`; the
cost field is the literal `"0"` whenever NO stored key is a prefix of the
number (the converse fails: a stored route whose cost is the literal `"0"`
renders identically — see the counterexample). -/
theorem batch_output_order_and_format (m : CostsMap) (ns : List String) :
    resultLines m (ns.map some) = ns.map (fun n => n ++ "," ++ getCost m n ++ "\n") ∧
    ∀ n, (∀ i, i ≤ strLen n → m (strTake n i) = none) → getCost m n = "0" := by
  constructor
  · unfold resultLines
    rw [getAllCosts_map_some, List.map_map]
    rfl
  · intro n h
    exact getCost_of_no_match m n h

/-- Witness for the amended C6 theorem at a concrete batch and query. -/
theorem batch_output_order_and_format_witness :
    resultLines emptyCosts (List.map some ["+5"])
      = List.map (fun n => n ++ "," ++ getCost emptyCosts n ++ "\n") ["+5"] ∧
    getCost emptyCosts "+5" = "0" :=
  ⟨(batch_output_order_and_format emptyCosts ["+5"]).1,
    (batch_output_order_and_format emptyCosts ["+5"]).2 "+5" (by decide)⟩

/-- Claim C7: `getCost` is total and returns the sentinel `"0"` whenever
no prefix of the query (of any length, the empty one included) is a key of
the index; in particular every lookup on the empty index returns `"0"`. -/
theorem lookup_no_match_sentinel (m : CostsMap) (q : String)
    (h : ∀ i, i ≤ strLen q → m (strTake q i) = none) :
    getCost m q = "0" ∧ ∀ w, getCost emptyCosts w = "0" :=
  ⟨getCost_of_no_match m q h,
    fun w => getCost_of_no_match emptyCosts w (fun _ _ => rfl)⟩

/-- Witness for C7: a non-empty index with no key matching the query, and
the query contains only the claim's normalized characters. -/
theorem lookup_no_match_sentinel_witness :
    getCost (updateCosts emptyCosts "+9" "0.01") "+447911123456" = "0" ∧
    ∀ w, getCost emptyCosts w = "0" :=
  lookup_no_match_sentinel (updateCosts emptyCosts "+9" "0.01") "+447911123456" (by decide)

/-- Claim C8: lookup is read-only. Threading the map through the loop as
explicit state, the map coming out of `getCost` is exactly the map that
went in (same keys, same values), and the returned cost agrees with the
direct rendering of `getCost`. -/
theorem lookup_read_only (m : CostsMap) (q : String) :
    (getCostS m q).2 = m ∧ (getCostS m q).1 = getCost m q := by
  unfold getCostS getCost
  rw [getCostLoopS_eq]
  exact ⟨rfl, rfl⟩

/-- Claim C9: the insertion-with-merge is idempotent — inserting the same
`(prefix, cost)` record twice in succession leaves exactly the map that a
single insertion produces. -/
theorem insert_idempotent (m : CostsMap) (p c : String) :
    insertRoute (insertRoute m p c) p c = insertRoute m p c := by
  funext k
  simp only [insertRoute_apply]
  by_cases hk : k = p
  · simp only [hk, if_pos]
    exact congrArg some (goMinOpt_absorb (m p) c)
  · simp [hk]

/-- Claim C10: the lookup loop probes `pfx[:0] = ""` as well, so an index
entry under the empty-string key acts as a universal fallback: if `""` is
stored with cost `c` and no non-empty prefix of the query is a key, the
lookup returns `c` rather than the sentinel `"0"`. -/
theorem empty_key_universal_fallback (m : CostsMap) (c q : String)
    (h0 : m "" = some c)
    (h : ∀ i, i < strLen q → m (strTake q (i + 1)) = none) :
    getCost m q = c := by
  have h0' : m (strTake q 0) = some c := by
    have ht : strTake q 0 = "" := rfl
    rw [ht, h0]
  refine getCostLoop_empty_key m q c h0' (strLen q) "0" ?_
  intro j hj hj2
  cases j with
  | zero => exact absurd hj (lt_irrefl 0)
  | succ n => exact h n (by omega)

/-- Witness for C10: an index holding only the empty route at cost
`"0.09"` resolves the otherwise-unmatched number `"+1"` to `"0.09"`. -/
theorem empty_key_universal_fallback_witness :
    getCost (updateCosts emptyCosts "" "0.09") "+1" = "0.09" :=
  empty_key_universal_fallback (updateCosts emptyCosts "" "0.09") "0.09" "+1"
    (by decide) (by decide)
